import Mathlib

/-!
Verification of `scripts/generate-ca.js`: a shallow embedding of the
elementary cellular-automaton generator, its library pruning, the
pick/shown-history logic, the filename metadata round-trip and the
README template injection, together with theorems settling the
specification's claims about them.
-/

set_option linter.unusedVariables false

/-! ## Configuration constants (generate-ca.js lines 8-21) -/

def COLS : Nat := 201

def ROWS : Nat := 100

def LIBRARY_CAP : Nat := 50

def SHOWN_CAP : Nat := 25

def BEGIN_MARKER : String := "<!-- BEGIN CELLULAR AUTOMATON -->"

def END_MARKER : String := "<!-- END CELLULAR AUTOMATON -->"

/-! ## CA simulator (generate-ca.js lines 44-57, the grid part of `buildSVG`) -/

/-- Embeds line 45: `rulemap[i] = (ruleNum >> i) & 1`. -/
def rulemap (ruleNum i : Nat) : Nat := (ruleNum >>> i) &&& 1

/-- Embeds the neighborhood code of line 55: `(L << 2) | (C << 1) | R`. -/
def mixCode (l c r : Nat) : Nat := (l <<< 2) ||| (c <<< 1) ||| r

/-- Embeds the grid fill of lines 47-57: row 0 has a single 1 at column
`COLS / 2` (line 48), and row `r+1` at column `c` applies `rulemap` to the
code of the previous row's cells at columns `(c - 1 + COLS) % COLS`, `c`
and `(c + 1) % COLS` (lines 49-56).  `cell ruleNum r c` is the value
`grid[r][c]` after the fill. -/
def cell (ruleNum : Nat) : Nat → Nat → Nat
  | 0, c => if c = COLS / 2 then 1 else 0
  | r + 1, c =>
      rulemap ruleNum (mixCode (cell ruleNum r ((c + COLS - 1) % COLS))
        (cell ruleNum r c) (cell ruleNum r ((c + 1) % COLS)))

lemma rulemap_eq_div (n k : Nat) : rulemap n k = n / 2 ^ k % 2 := by
  rw [rulemap, Nat.and_one_is_mod, Nat.shiftRight_eq_div_pow]

lemma rulemap_le_one (n k : Nat) : rulemap n k ≤ 1 := by
  rw [rulemap_eq_div]; omega

lemma rulemap_eq_testBit (n k : Nat) :
    rulemap n k = if Nat.testBit n k then 1 else 0 := by
  rw [rulemap_eq_div, Nat.testBit_to_div_mod]
  rcases Nat.mod_two_eq_zero_or_one (n / 2 ^ k) with h | h <;> simp [h]

lemma cell_le_one (n : Nat) : ∀ r c, cell n r c ≤ 1 := by
  intro r
  induction r with
  | zero => intro c; simp only [cell]; split <;> omega
  | succ r ih => intro c; simp only [cell]; exact rulemap_le_one _ _

lemma mixCode_eq {l c r : Nat} (hl : l ≤ 1) (hc : c ≤ 1) (hr : r ≤ 1) :
    mixCode l c r = 4 * l + 2 * c + r := by
  interval_cases l <;> interval_cases c <;> interval_cases r <;> rfl

lemma mixCode_le {l c r : Nat} (hl : l ≤ 1) (hc : c ≤ 1) (hr : r ≤ 1) :
    mixCode l c r ≤ 7 := by
  interval_cases l <;> interval_cases c <;> interval_cases r <;> decide

lemma cell_step (n r c : Nat) :
    cell n (r + 1) c =
      if Nat.testBit n (4 * cell n r ((c + COLS - 1) % COLS) + 2 * cell n r c +
          cell n r ((c + 1) % COLS)) then 1 else 0 := by
  simp only [cell]
  rw [mixCode_eq (cell_le_one n r _) (cell_le_one n r _) (cell_le_one n r _),
    rulemap_eq_testBit]

/-- C1: for every rule, the simulated grid is the unique grid determined by
the 8-entry mapping (output for neighborhood code i, with bit2 = left,
bit1 = center, bit0 = right, is bit i of the rule) together with the
recurrence: for every row `r ≥ 1` and column `c < COLS`, cell `(r, c)` is
the mapping applied to the code of the previous row's cells at columns
`(c - 1) mod COLS`, `c`, `(c + 1) mod COLS` (wrap-around); any grid `g`
seeded like row 0 and satisfying the recurrence coincides with `cell`,
which is a deterministic pure function of the rule. -/
theorem ca_grid_unique (ruleNum : Nat) (g : Nat → Nat → Nat)
    (h0 : ∀ c, c < COLS → g 0 c = if c = COLS / 2 then 1 else 0)
    (hstep : ∀ r c, c < COLS → g (r + 1) c =
      if Nat.testBit ruleNum (4 * g r ((c + COLS - 1) % COLS) + 2 * g r c +
          g r ((c + 1) % COLS)) then 1 else 0) :
    ∀ r c, c < COLS → g r c = cell ruleNum r c := by
  intro r
  induction r with
  | zero => intro c hc; rw [h0 c hc]; rfl
  | succ r ih =>
    intro c hc
    have hL : (c + COLS - 1) % COLS < COLS := Nat.mod_lt _ (by decide)
    have hR : (c + 1) % COLS < COLS := Nat.mod_lt _ (by decide)
    rw [hstep r c hc, ih _ hL, ih _ hc, ih _ hR, cell_step]

/-- Grid recurrence written exactly as C1's words describe it, used as a
concrete instance of the uniqueness theorem. -/
def specCell (ruleNum : Nat) : Nat → Nat → Nat
  | 0, c => if c = COLS / 2 then 1 else 0
  | r + 1, c =>
      if Nat.testBit ruleNum (4 * specCell ruleNum r ((c + COLS - 1) % COLS) +
          2 * specCell ruleNum r c + specCell ruleNum r ((c + 1) % COLS))
      then 1 else 0

theorem ca_grid_unique_witness : specCell 90 3 100 = cell 90 3 100 :=
  ca_grid_unique 90 (specCell 90) (fun c hc => rfl) (fun r c hc => rfl) 3 100
    (by decide)

/-- C2: for every rule, row 0 of the simulated grid has exactly one active
cell, at column `COLS / 2 = 100` with `COLS = 201`; every other cell of
row 0 is 0. -/
theorem ca_row0_seed (ruleNum : Nat) :
    COLS = 201 ∧ COLS / 2 = 100 ∧
    (∀ c, c < COLS → cell ruleNum 0 c = if c = COLS / 2 then 1 else 0) ∧
    (List.range COLS).countP (fun c => cell ruleNum 0 c == 1) = 1 := by
  refine ⟨rfl, rfl, fun c hc => rfl, ?_⟩
  have h : ∀ c ∈ List.range COLS,
      ((cell ruleNum 0 c == 1) = true ↔ (c == COLS / 2) = true) := by
    intro c hc
    simp only [cell]
    by_cases hceq : c = COLS / 2 <;> simp [hceq]
  rw [List.countP_congr h]
  decide

lemma rulemap_mod256 (n k : Nat) (hk : k < 8) :
    rulemap (n % 256) k = rulemap n k := by
  rw [rulemap_eq_div, rulemap_eq_div]
  interval_cases k <;> norm_num <;> omega

/-- C10: only the low 8 bits of the rule number affect the simulation: for
every non-negative rule `n`, including values above 255, the grid for `n`
coincides everywhere with the grid for `n % 256`, because the rule table
reads only bits 0 through 7. -/
theorem ca_rule_mod256 (ruleNum : Nat) :
    ∀ r c, cell ruleNum r c = cell (ruleNum % 256) r c := by
  intro r
  induction r with
  | zero => intro c; rfl
  | succ r ih =>
    intro c
    simp only [cell]
    rw [ih, ih, ih, rulemap_mod256]
    have h7 : mixCode (cell (ruleNum % 256) r ((c + COLS - 1) % COLS))
        (cell (ruleNum % 256) r c) (cell (ruleNum % 256) r ((c + 1) % COLS)) ≤ 7 :=
      mixCode_le (cell_le_one _ r _) (cell_le_one _ r _) (cell_le_one _ r _)
    omega

/-! ## Library pruning (generate-ca.js lines 104-112) -/

/-- Embeds the sort of line 106: JavaScript `Array.prototype.sort()` on the
library's filenames, i.e. lexicographic order. -/
def sortLex (files : List String) : List String := List.mergeSort files

/-- Embeds the while-loop of lines 108-112: while the list is longer than
`LIBRARY_CAP`, shift off (and delete) the first entry. -/
def pruneLoop : List String → List String
  | [] => []
  | f :: rest =>
      if rest.length + 1 > LIBRARY_CAP then pruneLoop rest else f :: rest

/-- Embeds lines 104-112 as a whole: the library's `.svg` filenames are
sorted lexicographically and the loop drops the lexicographically-first
entry while the count exceeds `LIBRARY_CAP`. -/
def prune (files : List String) : List String := pruneLoop (sortLex files)

lemma pruneLoop_eq_drop :
    ∀ l : List String, pruneLoop l = l.drop (l.length - LIBRARY_CAP) := by
  intro l
  induction l with
  | nil => rfl
  | cons f rest ih =>
    simp only [pruneLoop]
    split
    · next hgt =>
      rw [ih]
      have hlen : rest.length + 1 - LIBRARY_CAP = (rest.length - LIBRARY_CAP) + 1 := by
        simp only [LIBRARY_CAP] at hgt ⊢; omega
      simp only [List.length_cons, hlen, List.drop_succ_cons]
    · next hle =>
      have hz : rest.length + 1 - LIBRARY_CAP = 0 := by
        simp only [LIBRARY_CAP] at hle ⊢; omega
      simp only [List.length_cons, hz, List.drop_zero]

/-- C3: pruning sorts the entries lexicographically and repeatedly removes
the lexicographically-first entry while the count exceeds
`LIBRARY_CAP = 50`; afterward at most 50 entries remain, namely exactly
the lexicographically-largest `min (count, 50)` of the original entries
(the sorted entries split into a dropped lower part and the kept upper
part, every dropped entry being at most every kept one). -/
theorem prune_keeps_largest (files : List String) :
    LIBRARY_CAP = 50 ∧
    (prune files).length = min files.length LIBRARY_CAP ∧
    (prune files).length ≤ LIBRARY_CAP ∧
    List.Perm (sortLex files) files ∧
    sortLex files =
      (sortLex files).take (files.length - LIBRARY_CAP) ++ prune files ∧
    (∀ a ∈ (sortLex files).take (files.length - LIBRARY_CAP),
      ∀ b ∈ prune files, a ≤ b) := by
  have hperm : List.Perm (sortLex files) files := List.mergeSort_perm files _
  have hlen : (sortLex files).length = files.length := hperm.length_eq
  have hdrop : prune files = (sortLex files).drop (files.length - LIBRARY_CAP) := by
    rw [prune, pruneLoop_eq_drop, hlen]
  refine ⟨rfl, ?_, ?_, hperm, ?_, ?_⟩
  · rw [hdrop, List.length_drop, hlen]; omega
  · rw [hdrop, List.length_drop, hlen]; simp only [LIBRARY_CAP]; omega
  · rw [hdrop, List.take_append_drop]
  · intro a ha b hb
    rw [hdrop] at hb
    have hsorted : List.Sorted (· ≤ ·) (sortLex files) :=
      List.sorted_mergeSort' files
    have hsplit := hsorted
    rw [← List.take_append_drop (files.length - LIBRARY_CAP) (sortLex files),
      List.Sorted, List.pairwise_append] at hsplit
    exact hsplit.2.2 a ha b hb

/-! ## Picker and shown history (generate-ca.js lines 115-129) -/

/-- Embeds line 121: `libraryFiles.filter(f => !shown.includes(f))`. -/
def availableOf (libraryFiles shownList : List String) : List String :=
  libraryFiles.filter (fun f => !(shownList.contains f))

/-- Embeds line 123: `available.length > 0 ? available : libraryFiles`. -/
def pool (libraryFiles shownList : List String) : List String :=
  if (availableOf libraryFiles shownList).length > 0 then
    availableOf libraryFiles shownList
  else libraryFiles

/-- Embeds line 124: `pool[Math.floor(Math.random() * pool.length)]`, the
random draw being modelled by the index `i < pool.length` that
`Math.floor(Math.random() * pool.length)` produces. -/
def pick (libraryFiles shownList : List String) (i : Nat) : Option String :=
  (pool libraryFiles shownList)[i]?

/-- Embeds lines 128-129: `shown.push(picked)` followed by
`if (shown.length > SHOWN_CAP) shown = shown.slice(-SHOWN_CAP)`. -/
def recordShown (shownList : List String) (picked : String) : List String :=
  let s := shownList ++ [picked]
  if s.length > SHOWN_CAP then s.drop (s.length - SHOWN_CAP) else s

/-- Embeds lines 115-118: `shown` starts as `[]`; when the history file
exists its contents are parsed inside `try`/`catch`, an unparseable file
(`parsed = none`) leaving `shown` at `[]`. -/
def loadShown (fileExists : Bool) (parsed : Option (List String)) : List String :=
  if fileExists then
    match parsed with
    | some l => l
    | none => []
  else []

/-- C4: whenever the library is non-empty (and the random draw yields any
in-range index), `pick` returns some member of the pool: a member of
`library − shown` when that difference is non-empty (in particular the
unique member when the difference is a singleton), and a member of the
full library otherwise; it never fails. -/
theorem pick_avoids_history (lib shownList : List String) (i : Nat)
    (hlib : lib ≠ []) (hi : i < (pool lib shownList).length) :
    0 < (pool lib shownList).length ∧
    ∃ f, pick lib shownList i = some f ∧ f ∈ pool lib shownList ∧ f ∈ lib ∧
      (availableOf lib shownList ≠ [] → f ∈ availableOf lib shownList) ∧
      (∀ d, availableOf lib shownList = [d] → f = d) := by
  refine ⟨Nat.lt_of_le_of_lt (Nat.zero_le i) hi, ?_⟩
  obtain ⟨f, hf⟩ : ∃ f, (pool lib shownList)[i]? = some f :=
    ⟨(pool lib shownList)[i], List.getElem?_eq_getElem hi⟩
  refine ⟨f, hf, List.getElem?_mem hf, ?_, ?_, ?_⟩
  · have hmem : f ∈ pool lib shownList := List.getElem?_mem hf
    by_cases hav : (availableOf lib shownList).length > 0
    · have : pool lib shownList = availableOf lib shownList := if_pos hav
      rw [this] at hmem
      exact (List.mem_filter.mp hmem).1
    · have : pool lib shownList = lib := if_neg hav
      rwa [this] at hmem
  · intro hne
    have hav : (availableOf lib shownList).length > 0 :=
      List.length_pos.mpr hne
    have : pool lib shownList = availableOf lib shownList := if_pos hav
    rw [this] at hf
    exact List.getElem?_mem hf
  · intro d hd
    have hav : (availableOf lib shownList).length > 0 := by
      rw [hd]; simp
    have hpool : pool lib shownList = [d] := by rw [pool, if_pos hav, hd]
    rw [hpool] at hf hi
    simp only [List.length_singleton] at hi
    interval_cases i
    have hfd : d = f := by simpa using hf
    exact hfd.symm

theorem pick_avoids_history_witness :
    0 < (pool ["A", "B", "C", "D"] ["A", "B", "C"]).length ∧
    ∃ f, pick ["A", "B", "C", "D"] ["A", "B", "C"] 0 = some f ∧
      f ∈ pool ["A", "B", "C", "D"] ["A", "B", "C"] ∧
      f ∈ ["A", "B", "C", "D"] ∧
      (availableOf ["A", "B", "C", "D"] ["A", "B", "C"] ≠ [] →
        f ∈ availableOf ["A", "B", "C", "D"] ["A", "B", "C"]) ∧
      (∀ d, availableOf ["A", "B", "C", "D"] ["A", "B", "C"] = [d] → f = d) :=
  pick_avoids_history ["A", "B", "C", "D"] ["A", "B", "C"] 0 (by decide)
    (by decide)

lemma recordShown_length (shownList : List String) (picked : String) :
    (recordShown shownList picked).length = min (shownList.length + 1) SHOWN_CAP := by
  simp only [recordShown, List.length_append, List.length_singleton]
  split
  · next hgt =>
    rw [List.length_drop]
    simp only [List.length_append, List.length_singleton, SHOWN_CAP] at hgt ⊢
    omega
  · next hle =>
    simp only [List.length_append, List.length_singleton, SHOWN_CAP] at hle ⊢
    omega

lemma recordShown_foldl_le (picks : List String) :
    ∀ shownList : List String, picks ≠ [] →
      (picks.foldl recordShown shownList).length ≤ SHOWN_CAP := by
  induction picks with
  | nil => intro shownList h; exact absurd rfl h
  | cons p rest ih =>
    intro shownList h
    rw [List.foldl_cons]
    rcases rest with _ | ⟨q, rest'⟩
    · rw [List.foldl_nil, recordShown_length]
      simp only [SHOWN_CAP]; omega
    · exact ih (recordShown shownList p) (by simp)

/-- C5: `recordShown` appends the picked filename and, when the result is
longer than `SHOWN_CAP = 25`, keeps only the most recent 25 entries by
dropping from the front; its length is `min (old + 1) 25`, so repeated
application (at least once) never yields a history longer than 25, oldest
entries dropped first. -/
theorem recordShown_fifo_bound (shownList : List String) (picked : String) :
    SHOWN_CAP = 25 ∧
    recordShown shownList picked =
      (shownList ++ [picked]).drop (shownList.length + 1 - SHOWN_CAP) ∧
    (recordShown shownList picked).length = min (shownList.length + 1) SHOWN_CAP ∧
    (∀ picks : List String, picks ≠ [] →
      (picks.foldl recordShown shownList).length ≤ SHOWN_CAP) := by
  refine ⟨rfl, ?_, recordShown_length shownList picked,
    fun picks h => recordShown_foldl_le picks shownList h⟩
  simp only [recordShown, List.length_append, List.length_singleton]
  split
  · next hgt => rfl
  · next hle =>
    have hz : shownList.length + 1 - SHOWN_CAP = 0 := by
      simp only [List.length_append, List.length_singleton, SHOWN_CAP] at hle ⊢
      omega
    rw [hz, List.drop_zero]

theorem recordShown_fifo_bound_witness :
    (List.foldl recordShown ["a"] ["b"]).length ≤ SHOWN_CAP :=
  (recordShown_fifo_bound ["a"] "z").2.2.2 ["b"] (by decide)

/-- C7: when the persisted shown-history is unparseable (the `try`/`catch`
of lines 115-118 catches, modelled by `parsed = none`), loading yields the
empty history, and the subsequent pick and record steps behave exactly as
with an empty history. -/
theorem corrupt_history_recovery (fileExists : Bool) (lib : List String)
    (p : String) (i : Nat) :
    loadShown fileExists none = [] ∧
    availableOf lib (loadShown fileExists none) = lib ∧
    pick lib (loadShown fileExists none) i = pick lib [] i ∧
    recordShown (loadShown fileExists none) p = recordShown [] p := by
  have h : loadShown fileExists none = [] := by
    cases fileExists <;> rfl
  refine ⟨h, ?_, by rw [h], by rw [h]⟩
  rw [h, availableOf]
  simp

/-! ## Substring search (model of `String.prototype.indexOf`, lines 149-150) -/

/-- Boolean test that `pat` matches at the front of `s`. -/
def startsWithL : List Char → List Char → Bool
  | [], _ => true
  | _ :: _, [] => false
  | p :: ps, c :: cs => p == c && startsWithL ps cs

/-- Models JavaScript `s.indexOf(pat)`: the least index at which `pat`
occurs in `s` (`none` standing for `-1`). -/
def strIndexOf (pat : List Char) : List Char → Option Nat
  | [] => if startsWithL pat [] then some 0 else none
  | c :: t =>
      if startsWithL pat (c :: t) then some 0
      else (strIndexOf pat t).map (· + 1)

lemma startsWithL_iff : ∀ pat s : List Char, startsWithL pat s = true ↔ pat <+: s := by
  intro pat
  induction pat with
  | nil => intro s; simp [startsWithL]
  | cons p ps ih =>
    intro s
    cases s with
    | nil =>
      simp only [startsWithL]
      constructor
      · intro h; exact absurd h (by simp)
      · rintro ⟨t, ht⟩; simp at ht
    | cons c cs =>
      simp only [startsWithL, Bool.and_eq_true, beq_iff_eq, ih, List.cons_prefix_cons]

lemma strIndexOf_none {pat s : List Char} (h : strIndexOf pat s = none) :
    ∀ j, ¬ pat <+: s.drop j := by
  induction s generalizing pat with
  | nil =>
    intro j hj
    rw [List.drop_nil] at hj
    rw [strIndexOf] at h
    rw [← startsWithL_iff] at hj
    rw [if_pos hj] at h
    exact Option.noConfusion h
  | cons c t ih =>
    intro j hj
    rw [strIndexOf] at h
    by_cases hs : startsWithL pat (c :: t) = true
    · rw [if_pos hs] at h; exact Option.noConfusion h
    · rw [if_neg hs] at h
      have ht : strIndexOf pat t = none := by
        cases hx : strIndexOf pat t
        · rfl
        · rw [hx] at h; exact Option.noConfusion h
      cases j with
      | zero =>
        rw [List.drop_zero] at hj
        exact hs ((startsWithL_iff pat (c :: t)).mpr hj)
      | succ j' =>
        rw [List.drop_succ_cons] at hj
        exact ih ht j' hj

lemma strIndexOf_some {pat s : List Char} {i : Nat}
    (h : strIndexOf pat s = some i) :
    pat <+: s.drop i ∧ ∀ j, j < i → ¬ pat <+: s.drop j := by
  induction s generalizing pat i with
  | nil =>
    rw [strIndexOf] at h
    by_cases hs : startsWithL pat [] = true
    · rw [if_pos hs] at h
      cases h
      exact ⟨(startsWithL_iff pat []).mp hs, fun j hj => absurd hj (by omega)⟩
    · rw [if_neg hs] at h; exact Option.noConfusion h
  | cons c t ih =>
    rw [strIndexOf] at h
    by_cases hs : startsWithL pat (c :: t) = true
    · rw [if_pos hs] at h
      cases h
      exact ⟨(startsWithL_iff pat (c :: t)).mp hs, fun j hj => absurd hj (by omega)⟩
    · rw [if_neg hs] at h
      obtain ⟨i', hi', rfl⟩ := Option.map_eq_some'.mp h
      obtain ⟨hocc, hmin⟩ := ih hi'
      refine ⟨by rwa [List.drop_succ_cons], ?_⟩
      intro j hj
      cases j with
      | zero =>
        rw [List.drop_zero]
        exact fun hp => hs ((startsWithL_iff pat (c :: t)).mpr hp)
      | succ j' =>
        rw [List.drop_succ_cons]
        exact hmin j' (by omega)

lemma strIndexOf_eq_some {pat s : List Char} {i : Nat}
    (hocc : pat <+: s.drop i) (hmin : ∀ j, j < i → ¬ pat <+: s.drop j) :
    strIndexOf pat s = some i := by
  induction s generalizing i with
  | nil =>
    rw [List.drop_nil] at hocc
    have hi0 : i = 0 := by
      by_contra hne
      exact hmin 0 (by omega) (by rw [List.drop_nil]; exact hocc)
    subst hi0
    rw [strIndexOf, if_pos ((startsWithL_iff pat []).mpr hocc)]
  | cons c t ih =>
    cases i with
    | zero =>
      rw [List.drop_zero] at hocc
      rw [strIndexOf, if_pos ((startsWithL_iff pat (c :: t)).mpr hocc)]
    | succ i' =>
      have hs : ¬ startsWithL pat (c :: t) = true := by
        intro hs
        exact hmin 0 (by omega)
          (by rw [List.drop_zero]; exact (startsWithL_iff pat (c :: t)).mp hs)
      rw [strIndexOf, if_neg hs]
      rw [List.drop_succ_cons] at hocc
      have ht : strIndexOf pat t = some i' := by
        apply ih hocc
        intro j hj hp
        exact hmin (j + 1) (by omega) (by rwa [List.drop_succ_cons])
      rw [ht]
      rfl

/-- The template contains the pattern as a substring. -/
def occursIn (pat s : List Char) : Prop := ∃ i, pat <+: s.drop i

lemma occursIn_iff_isSome (pat s : List Char) :
    (strIndexOf pat s).isSome = true ↔ occursIn pat s := by
  constructor
  · intro h
    cases hs : strIndexOf pat s with
    | none => rw [hs] at h; exact Bool.noConfusion h
    | some i => exact ⟨i, (strIndexOf_some hs).1⟩
  · rintro ⟨i, hi⟩
    cases hs : strIndexOf pat s with
    | none => exact absurd hi (strIndexOf_none hs i)
    | some i' => rfl

instance (pat s : List Char) : Decidable (occursIn pat s) :=
  decidable_of_iff _ (occursIn_iff_isSome pat s)

/-! ## Template injection (generate-ca.js lines 139-160) -/

/-- Fuelled decimal rendering helper. -/
def natDigitsAux : Nat → Nat → List Char
  | 0, _ => []
  | fuel + 1, n =>
      if n < 10 then [Nat.digitChar n]
      else natDigitsAux fuel (n / 10) ++ [Nat.digitChar (n % 10)]

/-- Models JavaScript number-to-string conversion (template literals
`${newRule}` / `${pickedRule}`) for non-negative integers: the decimal
digits of `n`. -/
def natDigits (n : Nat) : List Char := natDigitsAux (n + 1) n

lemma natDigitsAux_congr :
    ∀ f g n : Nat, n < f → n < g → natDigitsAux f n = natDigitsAux g n := by
  intro f
  induction f with
  | zero => intro g n h; omega
  | succ f ih =>
    intro g n hf hg
    cases g with
    | zero => omega
    | succ g =>
      simp only [natDigitsAux]
      split
      · rfl
      · next h10 =>
        have hd : n / 10 < n := Nat.div_lt_self (by omega) (by omega)
        rw [ih g (n / 10) (by omega) (by omega)]

lemma natDigits_eq (n : Nat) :
    natDigits n = if n < 10 then [Nat.digitChar n]
      else natDigits (n / 10) ++ [Nat.digitChar (n % 10)] := by
  rw [natDigits]
  show natDigitsAux (n + 1) n = _
  simp only [natDigitsAux]
  split
  · rfl
  · next h10 =>
    have hd : n / 10 < n := Nat.div_lt_self (by omega) (by omega)
    rw [natDigitsAux_congr n (n / 10 + 1) (n / 10) (by omega) (by omega)]
    exact rfl

lemma natDigits_mem (n : Nat) :
    ∀ c ∈ natDigits n, 48 ≤ c.toNat ∧ c.toNat ≤ 57 := by
  induction n using Nat.strong_induction_on with
  | _ n ih =>
    rw [natDigits_eq]
    split
    · next h10 =>
      intro c hc
      simp only [List.mem_singleton] at hc
      subst hc
      interval_cases n <;> decide
    · next h10 =>
      intro c hc
      rw [List.mem_append] at hc
      rcases hc with hc | hc
      · exact ih (n / 10) (Nat.div_lt_self (by omega) (by omega)) c hc
      · simp only [List.mem_singleton] at hc
        subst hc
        have hlt : n % 10 < 10 := Nat.mod_lt _ (by omega)
        have hall : ∀ d, d < 10 → 48 ≤ (Nat.digitChar d).toNat ∧
            (Nat.digitChar d).toNat ≤ 57 := by decide
        exact hall _ hlt

lemma natDigits_ne_nil (n : Nat) : natDigits n ≠ [] := by
  rw [natDigits_eq]
  split
  · simp
  · simp

/-! ## Prefix helpers -/

lemma pre_eq_take {p l : List Char} (h : p <+: l) : p = l.take p.length := by
  obtain ⟨t, rfl⟩ := h
  simp

lemma pre_of_append_left {p u v : List Char} (h : p <+: u ++ v)
    (hle : p.length ≤ u.length) : p <+: u := by
  have h2 : p = u.take p.length := by
    rw [pre_eq_take h, List.take_append_eq_append_take]
    have hz : p.length - u.length = 0 := by omega
    rw [hz]
    simp
  rw [h2]
  exact ⟨u.drop p.length, List.take_append_drop _ u⟩

lemma drop_append_le {u v : List Char} {j : Nat} (h : j ≤ u.length) :
    (u ++ v).drop j = u.drop j ++ v := by
  rw [List.drop_append_eq_append_drop]
  have hz : j - u.length = 0 := by omega
  rw [hz, List.drop_zero]

lemma pre_drop_of_append {p u v : List Char} (h : p <+: u ++ v)
    (hle : u.length ≤ p.length) : p.drop u.length <+: v := by
  obtain ⟨t, ht⟩ := h
  refine ⟨t, ?_⟩
  have h2 := congrArg (List.drop u.length) ht
  rwa [drop_append_le hle, List.drop_left] at h2

lemma pre_append_right {p u : List Char} (v : List Char) (h : p <+: u) :
    p <+: u ++ v := by
  obtain ⟨t, rfl⟩ := h
  exact ⟨t ++ v, by rw [List.append_assoc]⟩

lemma pre_head {c : Char} {t l : List Char} (h : c :: t <+: l) :
    l.head? = some c := by
  obtain ⟨w, hw⟩ := h
  rw [← hw]
  rfl

lemma head?_append_left {u v : List Char} (h : u ≠ []) :
    (u ++ v).head? = u.head? := by
  cases u with
  | nil => exact absurd rfl h
  | cons c t => rfl

/-- The middle of the injected block (lines 139-147): the blank lines, image
reference and caption between the two markers, `join('\n')` appearing as the
literal newlines. -/
def injBody (r : Nat) : List Char :=
  "\n\n![Wolfram Elementary Cellular Automaton — Rule ".data ++ natDigits r ++
    "](./ca.svg)\n\n*Rule ".data ++ natDigits r ++
    " — updates every 8 hours*\n\n".data

/-- Embeds lines 139-147: the full injected block
`[BEGIN_MARKER, '', img, '', caption, '', END_MARKER].join('\n')`. -/
def injection (r : Nat) : List Char :=
  BEGIN_MARKER.data ++ injBody r ++ END_MARKER.data

/-- Embeds lines 149-160: look up both markers; if either is missing the
run errors out with the diagnostic of line 152 and exits non-zero without
writing the README (the `Except.error` case); otherwise the written README
is the template with everything from the BEGIN marker up to the end of the
END marker replaced by the injected block. -/
def applyInjection (template : List Char) (r : Nat) : Except String (List Char) :=
  match strIndexOf BEGIN_MARKER.data template, strIndexOf END_MARKER.data template with
  | some b, some e =>
      Except.ok (template.take b ++ injection r ++
        template.drop (e + END_MARKER.data.length))
  | _, _ => Except.error "ERROR: Markers not found in README.template"

/-- C6: for every template in which the BEGIN marker or the END marker (or
both) does not occur, the run aborts with the fatal diagnostic (non-zero
exit, no README written); for every template containing both markers the
destination README is written and the marker check does not abort. -/
theorem marker_check_fatal (template : List Char) (r : Nat) :
    ((¬ occursIn BEGIN_MARKER.data template ∨ ¬ occursIn END_MARKER.data template) →
      applyInjection template r =
        Except.error "ERROR: Markers not found in README.template") ∧
    (occursIn BEGIN_MARKER.data template → occursIn END_MARKER.data template →
      ∃ doc, applyInjection template r = Except.ok doc) := by
  constructor
  · intro hmiss
    rcases hmiss with hmiss | hmiss
    · have hB : strIndexOf BEGIN_MARKER.data template = none := by
        cases hs : strIndexOf BEGIN_MARKER.data template with
        | none => rfl
        | some i =>
          exact absurd ((occursIn_iff_isSome _ _).mp (by rw [hs]; rfl)) hmiss
      unfold applyInjection
      rw [hB]
    · have hE : strIndexOf END_MARKER.data template = none := by
        cases hs : strIndexOf END_MARKER.data template with
        | none => rfl
        | some i =>
          exact absurd ((occursIn_iff_isSome _ _).mp (by rw [hs]; rfl)) hmiss
      unfold applyInjection
      rw [hE]
      cases strIndexOf BEGIN_MARKER.data template <;> rfl
  · intro hB hE
    have hB' : (strIndexOf BEGIN_MARKER.data template).isSome = true :=
      (occursIn_iff_isSome _ _).mpr hB
    have hE' : (strIndexOf END_MARKER.data template).isSome = true :=
      (occursIn_iff_isSome _ _).mpr hE
    cases hsb : strIndexOf BEGIN_MARKER.data template with
    | none => rw [hsb] at hB'; exact Bool.noConfusion hB'
    | some b =>
      cases hse : strIndexOf END_MARKER.data template with
      | none => rw [hse] at hE'; exact Bool.noConfusion hE'
      | some e =>
        refine ⟨template.take b ++ injection r ++
          template.drop (e + END_MARKER.data.length), ?_⟩
        unfold applyInjection
        rw [hsb, hse]

theorem marker_check_fatal_witness :
    applyInjection "no markers here".data 30 =
      Except.error "ERROR: Markers not found in README.template" :=
  (marker_check_fatal "no markers here".data 30).1 (Or.inl (by decide))

/-! ## Filename metadata (generate-ca.js lines 96-97 and 136) -/

/-- Embeds `String(newRule).padStart(3, '0')` of line 97. -/
def pad3 (r : Nat) : List Char :=
  List.replicate (3 - (natDigits r).length) '0' ++ natDigits r

/-- Embeds line 97: `rule-<rule zero-padded to 3 digits>-<timestamp>.svg`. -/
def mkFilename (r : Nat) (timestamp : List Char) : List Char :=
  "rule-".data ++ (pad3 r ++ ("-".data ++ (timestamp ++ ".svg".data)))

/-- Embeds line 136: `parseInt(picked.match(/rule-(\d+)/)[1], 10)` — find
the first occurrence of `rule-`, take the longest run of decimal digits
after it (the regex needs at least one) and read it as a base-10 number. -/
def parseRule (name : List Char) : Option Nat :=
  match strIndexOf "rule-".data name with
  | none => none
  | some i =>
      if ((name.drop (i + 5)).takeWhile fun c => 48 ≤ c.toNat && c.toNat ≤ 57) = []
      then none
      else some (((name.drop (i + 5)).takeWhile
        fun c => 48 ≤ c.toNat && c.toNat ≤ 57).foldl
          (fun acc c => 10 * acc + (c.toNat - 48)) 0)

lemma digits_foldl (n : Nat) : ∀ acc : Nat,
    (natDigits n).foldl (fun acc c => 10 * acc + (c.toNat - 48)) acc =
      acc * 10 ^ (natDigits n).length + n := by
  induction n using Nat.strong_induction_on with
  | _ n ih =>
    intro acc
    rw [natDigits_eq]
    split
    · next h10 =>
      simp only [List.foldl_cons, List.foldl_nil, List.length_singleton]
      have hd : (Nat.digitChar n).toNat - 48 = n := by
        interval_cases n <;> decide
      rw [hd, pow_one]
      omega
    · next h10 =>
      have hlt : n / 10 < n := Nat.div_lt_self (by omega) (by omega)
      rw [List.foldl_append, ih (n / 10) hlt acc, List.length_append]
      simp only [List.foldl_cons, List.foldl_nil, List.length_singleton]
      have hmod : n % 10 < 10 := Nat.mod_lt _ (by omega)
      have hall : ∀ d, d < 10 → (Nat.digitChar d).toNat - 48 = d := by decide
      rw [hall _ hmod]
      calc 10 * (acc * 10 ^ (natDigits (n / 10)).length + n / 10) + n % 10
          = acc * (10 ^ (natDigits (n / 10)).length * 10) +
              (10 * (n / 10) + n % 10) := by ring
        _ = acc * 10 ^ ((natDigits (n / 10)).length + 1) + n := by
              rw [pow_succ, Nat.div_add_mod]

lemma foldl_digit_zeros : ∀ k : Nat,
    (List.replicate k '0').foldl (fun acc c => 10 * acc + (c.toNat - 48)) 0 = 0 := by
  intro k
  induction k with
  | zero => rfl
  | succ k ih =>
    rw [List.replicate_succ, List.foldl_cons]
    have h0 : (10 * 0 + (('0' : Char).toNat - 48)) = 0 := by decide
    rw [h0, ih]

lemma takeWhile_append_all {p : Char → Bool} :
    ∀ u v : List Char, (∀ c ∈ u, p c = true) →
      (u ++ v).takeWhile p = u ++ v.takeWhile p := by
  intro u
  induction u with
  | nil => intro v h; rfl
  | cons c t ih =>
    intro v h
    rw [List.cons_append, List.takeWhile_cons, h c (by simp), if_pos rfl,
      ih v (fun c hc => h c (by simp [hc]))]
    rfl

/-- C9: for every rule in `[0, 255]` and any timestamp, building the library
filename (which embeds the rule zero-padded to 3 digits) and then parsing
the rule metadata back out (the digits after `rule-`, read base 10)
recovers the original rule number exactly. -/
theorem rule_roundtrip (r : Nat) (hr : r ≤ 255) (timestamp : List Char) :
    parseRule (mkFilename r timestamp) = some r := by
  have hidx : strIndexOf "rule-".data (mkFilename r timestamp) = some 0 := by
    apply strIndexOf_eq_some
    · rw [List.drop_zero, mkFilename]
      exact ⟨_, rfl⟩
    · intro j hj
      omega
  rw [parseRule, hidx]
  have hdrop : (mkFilename r timestamp).drop (0 + 5) =
      pad3 r ++ ('-' :: (timestamp ++ ".svg".data)) := by
    rw [mkFilename,
      List.drop_left' (by rfl : ("rule-".data).length = 0 + 5)]
    rfl
  have hdig : ∀ c ∈ pad3 r, (48 ≤ c.toNat && c.toNat ≤ 57) = true := by
    intro c hc
    rw [pad3, List.mem_append] at hc
    rcases hc with hc | hc
    · rw [List.eq_of_mem_replicate hc]
      decide
    · have := natDigits_mem r c hc
      simp only [Bool.and_eq_true, decide_eq_true_eq]
      omega
  have htw : ((mkFilename r timestamp).drop (0 + 5)).takeWhile
      (fun c => 48 ≤ c.toNat && c.toNat ≤ 57) = pad3 r := by
    rw [hdrop, takeWhile_append_all _ _ hdig, List.takeWhile_cons,
      if_neg (by decide)]
    simp
  show (if ((mkFilename r timestamp).drop (0 + 5)).takeWhile
      (fun c => 48 ≤ c.toNat && c.toNat ≤ 57) = [] then none
    else some ((((mkFilename r timestamp).drop (0 + 5)).takeWhile
      (fun c => 48 ≤ c.toNat && c.toNat ≤ 57)).foldl
        (fun acc c => 10 * acc + (c.toNat - 48)) 0)) = some r
  rw [htw]
  have hne : pad3 r ≠ [] := by
    rw [pad3]
    intro h
    exact natDigits_ne_nil r (List.append_eq_nil.mp h).2
  rw [if_neg hne]
  congr 1
  rw [pad3, List.foldl_append, foldl_digit_zeros, digits_foldl r 0]
  simp

theorem rule_roundtrip_witness :
    parseRule (mkFilename 137 "2025-10-11T00-00-00-000".data) = some 137 :=
  rule_roundtrip 137 (by decide) "2025-10-11T00-00-00-000".data

/-! ## Idempotence of the injection (C8) -/

lemma injBody_no_lt (r : Nat) : ∀ c ∈ injBody r, c ≠ '<' := by
  have h1 : ∀ c ∈ "\n\n![Wolfram Elementary Cellular Automaton — Rule ".data,
      c ≠ '<' := by decide
  have h2 : ∀ c ∈ "](./ca.svg)\n\n*Rule ".data, c ≠ '<' := by decide
  have h3 : ∀ c ∈ " — updates every 8 hours*\n\n".data, c ≠ '<' := by decide
  have hd : ∀ c ∈ natDigits r, c ≠ '<' := by
    intro c hc heq
    have hle := (natDigits_mem r c hc).2
    rw [heq] at hle
    revert hle
    decide
  intro c hc
  rw [injBody] at hc
  simp only [List.mem_append] at hc
  rcases hc with ((((hc | hc) | hc) | hc) | hc)
  · exact h1 c hc
  · exact hd c hc
  · exact h2 c hc
  · exact hd c hc
  · exact h3 c hc

lemma inj_front_no_lt (r : Nat) (j : Nat) (hj : 0 < j) :
    (BEGIN_MARKER.data ++ injBody r)[j]? ≠ some '<' := by
  intro h
  obtain ⟨j', rfl⟩ : ∃ j'', j = j'' + 1 := ⟨j - 1, by omega⟩
  have hshape : BEGIN_MARKER.data ++ injBody r =
      '<' :: ("!-- BEGIN CELLULAR AUTOMATON -->".data ++ injBody r) := rfl
  rw [hshape, List.getElem?_cons_succ] at h
  have hc : '<' ∈ "!-- BEGIN CELLULAR AUTOMATON -->".data ++ injBody r :=
    List.getElem?_mem h
  rw [List.mem_append] at hc
  rcases hc with hc | hc
  · revert hc; decide
  · exact injBody_no_lt r '<' hc rfl

/-- C8 (amended): for every document in which the first occurrence of the
BEGIN marker starts no later than the first occurrence of the END marker
(position `b ≤ e`, as in any well-formed template), a first injection
produces `pre ++ injection r1 ++ suf`, and injecting again into that fresh
output replaces exactly the injected block: the twice-injected document
equals the once-injected document for the second rule, so it differs from
the once-injected one only in the rule number / artifact reference and
marker pairs are never duplicated. -/
theorem inject_idempotent (T : List Char) (r1 r2 b e : Nat)
    (hb : strIndexOf BEGIN_MARKER.data T = some b)
    (he : strIndexOf END_MARKER.data T = some e)
    (hbe : b ≤ e) :
    ∃ pre suf : List Char,
      applyInjection T r1 = Except.ok (pre ++ injection r1 ++ suf) ∧
      applyInjection T r2 = Except.ok (pre ++ injection r2 ++ suf) ∧
      applyInjection (pre ++ injection r1 ++ suf) r2 =
        Except.ok (pre ++ injection r2 ++ suf) := by
  obtain ⟨hoccB, hminB⟩ := strIndexOf_some hb
  obtain ⟨hoccE, hminE⟩ := strIndexOf_some he
  have hlenB : BEGIN_MARKER.data.length = 33 := rfl
  have hlenE : END_MARKER.data.length = 31 := rfl
  have hb33 : b + 33 ≤ T.length := by
    have hL := hoccB.length_le
    rw [List.length_drop, hlenB] at hL
    omega
  have he31 : e + 31 ≤ T.length := by
    have hL := hoccE.length_le
    rw [List.length_drop, hlenE] at hL
    omega
  have hpre_len : (T.take b).length = b := by
    rw [List.length_take]; omega
  refine ⟨T.take b, T.drop (e + 31), ?_, ?_, ?_⟩
  · unfold applyInjection
    rw [hb, he]
    rfl
  · unfold applyInjection
    rw [hb, he]
    rfl
  have hT : T = T.take b ++ T.drop b := (List.take_append_drop b T).symm
  have hOB : strIndexOf BEGIN_MARKER.data
      (T.take b ++ injection r1 ++ T.drop (e + 31)) = some b := by
    apply strIndexOf_eq_some
    · have hdrop1 : (T.take b ++ injection r1 ++ T.drop (e + 31)).drop b =
          injection r1 ++ T.drop (e + 31) := by
        rw [List.append_assoc, List.drop_left' hpre_len]
      rw [hdrop1]
      exact ⟨injBody r1 ++ (END_MARKER.data ++ T.drop (e + 31)),
        by simp [injection, List.append_assoc]⟩
    · intro j hj hpj
      have hjle : j ≤ (T.take b).length := by omega
      rw [List.append_assoc, drop_append_le hjle] at hpj
      have hlen_pd : ((T.take b).drop j).length = b - j := by
        rw [List.length_drop, hpre_len]
      by_cases hcase : 33 ≤ b - j
      · have h1 : BEGIN_MARKER.data <+: (T.take b).drop j :=
          pre_of_append_left hpj (by rw [hlen_pd, hlenB]; omega)
        have hTd : T.drop j = (T.take b).drop j ++ T.drop b := by
          conv_lhs => rw [hT]
          rw [drop_append_le hjle]
        have h2 : BEGIN_MARKER.data <+: T.drop j := by
          rw [hTd]
          exact pre_append_right _ h1
        exact hminB j (by omega) h2
      · have hsplit := pre_drop_of_append hpj (by rw [hlen_pd, hlenB]; omega)
        rw [hlen_pd] at hsplit
        have hre : injection r1 ++ T.drop (e + 31) =
            BEGIN_MARKER.data ++ (injBody r1 ++ (END_MARKER.data ++ T.drop (e + 31))) := by
          simp [injection, List.append_assoc]
        rw [hre] at hsplit
        have h2 : BEGIN_MARKER.data.drop (b - j) <+: BEGIN_MARKER.data :=
          pre_of_append_left hsplit (by rw [List.length_drop, hlenB]; omega)
        have h3 := pre_eq_take h2
        rw [List.length_drop, hlenB] at h3
        have hnb : ∀ k, k < 33 → 0 < k →
            BEGIN_MARKER.data.drop k ≠ BEGIN_MARKER.data.take (33 - k) := by decide
        exact hnb (b - j) (by omega) (by omega) h3
  have hOE : strIndexOf END_MARKER.data
      (T.take b ++ injection r1 ++ T.drop (e + 31)) =
      some (b + (33 + (injBody r1).length)) := by
    apply strIndexOf_eq_some
    · have hshape : T.take b ++ injection r1 ++ T.drop (e + 31) =
          (T.take b ++ (BEGIN_MARKER.data ++ injBody r1)) ++
            (END_MARKER.data ++ T.drop (e + 31)) := by
        simp [injection, List.append_assoc]
      rw [hshape, List.drop_left' (by
        rw [List.length_append, List.length_append, hpre_len, hlenB])]
      exact ⟨T.drop (e + 31), rfl⟩
    · intro j hj hpj
      by_cases hzone1 : j < b
      · have hjle : j ≤ (T.take b).length := by omega
        rw [List.append_assoc, drop_append_le hjle] at hpj
        have hlen_pd : ((T.take b).drop j).length = b - j := by
          rw [List.length_drop, hpre_len]
        by_cases hcase : 31 ≤ b - j
        · have h1 : END_MARKER.data <+: (T.take b).drop j :=
            pre_of_append_left hpj (by rw [hlen_pd, hlenE]; omega)
          have hTd : T.drop j = (T.take b).drop j ++ T.drop b := by
            conv_lhs => rw [hT]
            rw [drop_append_le hjle]
          have h2 : END_MARKER.data <+: T.drop j := by
            rw [hTd]
            exact pre_append_right _ h1
          exact hminE j (by omega) h2
        · have hsplit := pre_drop_of_append hpj (by rw [hlen_pd, hlenE]; omega)
          rw [hlen_pd] at hsplit
          have hre : injection r1 ++ T.drop (e + 31) =
              BEGIN_MARKER.data ++ (injBody r1 ++ (END_MARKER.data ++ T.drop (e + 31))) := by
            simp [injection, List.append_assoc]
          rw [hre] at hsplit
          have h2 : END_MARKER.data.drop (b - j) <+: BEGIN_MARKER.data :=
            pre_of_append_left hsplit (by rw [List.length_drop, hlenE, hlenB]; omega)
          have h3 := pre_eq_take h2
          rw [List.length_drop, hlenE] at h3
          have hnb : ∀ k, k < 31 → 0 < k →
              END_MARKER.data.drop k ≠ BEGIN_MARKER.data.take (31 - k) := by decide
          exact hnb (b - j) (by omega) (by omega) h3
      · push_neg at hzone1
        have hshape : T.take b ++ injection r1 ++ T.drop (e + 31) =
            T.take b ++ ((BEGIN_MARKER.data ++ injBody r1) ++
              (END_MARKER.data ++ T.drop (e + 31))) := by
          simp [injection, List.append_assoc]
        rw [hshape, List.drop_append_eq_append_drop,
          List.drop_eq_nil_of_le (by rw [hpre_len]; omega : (T.take b).length ≤ j),
          hpre_len, List.nil_append] at hpj
        have hjb : j - b ≤ (BEGIN_MARKER.data ++ injBody r1).length := by
          rw [List.length_append, hlenB]; omega
        rw [drop_append_le hjb] at hpj
        by_cases hj0 : j - b = 0
        · rw [hj0, List.drop_zero, List.append_assoc] at hpj
          have h2 : END_MARKER.data <+: BEGIN_MARKER.data :=
            pre_of_append_left hpj (by rw [hlenE, hlenB]; omega)
          have h3 := pre_eq_take h2
          rw [hlenE] at h3
          have hne : END_MARKER.data ≠ BEGIN_MARKER.data.take 31 := by decide
          exact hne h3
        · have hEhead : END_MARKER.data =
              '<' :: "!-- END CELLULAR AUTOMATON -->".data := rfl
          rw [hEhead] at hpj
          have hhead := pre_head hpj
          have hne_nil : (BEGIN_MARKER.data ++ injBody r1).drop (j - b) ≠ [] := by
            intro hnil
            have hlen0 := congrArg List.length hnil
            rw [List.length_drop, List.length_append, hlenB] at hlen0
            simp only [List.length_nil] at hlen0
            omega
          rw [head?_append_left hne_nil, List.head?_drop] at hhead
          exact inj_front_no_lt r1 (j - b) (by omega) hhead
  unfold applyInjection
  rw [hOB, hOE]
  have htake : (T.take b ++ injection r1 ++ T.drop (e + 31)).take b = T.take b := by
    rw [List.append_assoc, List.take_left' hpre_len]
  have hdrop2 : (T.take b ++ injection r1 ++ T.drop (e + 31)).drop
      (b + (33 + (injBody r1).length) + END_MARKER.data.length) = T.drop (e + 31) := by
    apply List.drop_left'
    rw [List.length_append, hpre_len, injection, List.length_append,
      List.length_append, hlenB, hlenE]
    omega
  show Except.ok ((T.take b ++ injection r1 ++ T.drop (e + 31)).take b ++
      injection r2 ++ (T.take b ++ injection r1 ++ T.drop (e + 31)).drop
        (b + (33 + (injBody r1).length) + END_MARKER.data.length)) =
    Except.ok (T.take b ++ injection r2 ++ T.drop (e + 31))
  rw [htake, hdrop2]

theorem inject_idempotent_witness :
    ∃ pre suf : List Char,
      applyInjection (BEGIN_MARKER.data ++ END_MARKER.data) 30 =
        Except.ok (pre ++ injection 30 ++ suf) ∧
      applyInjection (BEGIN_MARKER.data ++ END_MARKER.data) 90 =
        Except.ok (pre ++ injection 90 ++ suf) ∧
      applyInjection (pre ++ injection 30 ++ suf) 90 =
        Except.ok (pre ++ injection 90 ++ suf) :=
  inject_idempotent (BEGIN_MARKER.data ++ END_MARKER.data) 30 90 0 33
    (by decide) (by decide) (by decide)

set_option maxRecDepth 100000 in
/-- C8 as frozen is false: the document `END_MARKER ++ BEGIN_MARKER`
contains both markers, yet re-injecting (with the same rule 30, so the rule
number and artifact reference are unchanged) does not reproduce the
once-injected document — the second pass inserts a second complete injected
block, duplicating the marker pair. -/
theorem inject_twice_cex :
    occursIn BEGIN_MARKER.data (END_MARKER.data ++ BEGIN_MARKER.data) ∧
    occursIn END_MARKER.data (END_MARKER.data ++ BEGIN_MARKER.data) ∧
    applyInjection (END_MARKER.data ++ BEGIN_MARKER.data) 30 =
      Except.ok (END_MARKER.data ++ injection 30 ++ BEGIN_MARKER.data) ∧
    applyInjection (END_MARKER.data ++ injection 30 ++ BEGIN_MARKER.data) 30 =
      Except.ok (END_MARKER.data ++ injection 30 ++ (injection 30 ++ BEGIN_MARKER.data)) ∧
    END_MARKER.data ++ injection 30 ++ (injection 30 ++ BEGIN_MARKER.data) ≠
      END_MARKER.data ++ injection 30 ++ BEGIN_MARKER.data :=
  ⟨by decide, by decide, rfl, rfl, by decide⟩
